import Mathlib

/-!
# Verification of the rust8 CHIP-8 emulator core

Shallow embedding of the two core components of the emulator:
the pure instruction decoder (src/hardware/instruction_decoder.rs) and the
CPU execution engine (src/hardware/chip8.rs).

Machine integers are modelled as Nat with explicit reductions modulo
2^8 / 2^16 exactly where the Rust types wrap.  Rust panics
(the decoder's unimplemented!/unreachable! arms, and Vec::pop().unwrap()
on an empty stack) are modelled by Option, with none standing for the panic.
-/

namespace Rust8

/-- The instruction sum type, one constructor per variant of
the Rust enum Instruction (instruction_decoder.rs).
Register operands and addresses are Nat (u8 / u16 values). -/
inductive Instruction where
  | Clear
  | NoOp
  | Call (address : Nat)
  | Ret
  | Jmp (address : Nat)
  | RegEqVal (x v : Nat)
  | RegNeqVal (x v : Nat)
  | RegEqReg (x y : Nat)
  | SetRegVal (x v : Nat)
  | AddRegVal (x v : Nat)
  | SetRegReg (x y : Nat)
  | SetRegOrReg (x y : Nat)
  | SetRegAndReg (x y : Nat)
  | SetRegXorReg (x y : Nat)
  | AddRegReg (x y : Nat)
  | SubRegReg (x y : Nat)
  | ShiftRegRight (x : Nat)
  | RevRegSubReg (x y : Nat)
  | ShiftRegLeft (x : Nat)
  | RegNeqReg (x y : Nat)
  | SetI (address : Nat)
  | SetRegRand (x v : Nat)
  | JmpOffset (address : Nat)
  | Draw (x y n : Nat)
  | KeyUp (x : Nat)
  | KeyDown (x : Nat)
  | SetRegDelay (x : Nat)
  | SetRegKey (x : Nat)
  | SetDelayReg (x : Nat)
  | SetSoundReg (x : Nat)
  | AddIReg (x : Nat)
  | SetISpriteReg (x : Nat)
  | BCD (x : Nat)
  | Dump (x : Nat)
  | Load (x : Nat)
deriving DecidableEq, Repr

/-- Instruction.decode (instruction_decoder.rs, lines 45-102).
The unimplemented! arm of the 0x8 family and the unreachable! arms of the
0xE and 0xF families are panics in the source; they are modelled as none.
The final wildcard arm (unreachable! in the source) is also none; for a
16-bit opcode the masked value always matches one of the sixteen cases. -/
def decode (opcode : Nat) : Option Instruction :=
  let register_x : Nat := (opcode &&& 0x0F00) >>> 8
  let register_y : Nat := (opcode &&& 0x00F0) >>> 4
  let address : Nat := opcode &&& 0x0FFF
  let nn : Nat := opcode &&& 0xFF
  let n : Nat := opcode &&& 0xF
  match opcode &&& 0xF000 with
  | 0x0000 =>
    match address with
    | 0xE0 => some Instruction.Clear
    | 0xEE => some Instruction.Ret
    | _ => some Instruction.NoOp
  | 0x1000 => some (Instruction.Jmp address)
  | 0x2000 => some (Instruction.Call address)
  | 0x3000 => some (Instruction.RegEqVal register_x nn)
  | 0x4000 => some (Instruction.RegNeqVal register_x nn)
  | 0x5000 => some (Instruction.RegEqReg register_x register_y)
  | 0x6000 => some (Instruction.SetRegVal register_x nn)
  | 0x7000 => some (Instruction.AddRegVal register_x nn)
  | 0x8000 =>
    match n with
    | 0x0 => some (Instruction.SetRegReg register_x register_y)
    | 0x1 => some (Instruction.SetRegOrReg register_x register_y)
    | 0x2 => some (Instruction.SetRegAndReg register_x register_y)
    | 0x3 => some (Instruction.SetRegXorReg register_x register_y)
    | 0x4 => some (Instruction.AddRegReg register_x register_y)
    | 0x5 => some (Instruction.SubRegReg register_x register_y)
    | 0x6 => some (Instruction.ShiftRegRight register_x)
    | 0x7 => some (Instruction.RevRegSubReg register_x register_y)
    | 0xE => some (Instruction.ShiftRegLeft register_x)
    | _ => none
  | 0x9000 => some (Instruction.RegNeqReg register_x register_y)
  | 0xA000 => some (Instruction.SetI address)
  | 0xB000 => some (Instruction.JmpOffset address)
  | 0xC000 => some (Instruction.SetRegRand register_x nn)
  | 0xD000 => some (Instruction.Draw register_x register_y n)
  | 0xE000 =>
    match nn with
    | 0x9E => some (Instruction.KeyDown register_x)
    | 0xA1 => some (Instruction.KeyUp register_x)
    | _ => none
  | 0xF000 =>
    match nn with
    | 0x07 => some (Instruction.SetRegDelay register_x)
    | 0x0A => some (Instruction.SetRegKey register_x)
    | 0x15 => some (Instruction.SetDelayReg register_x)
    | 0x18 => some (Instruction.SetSoundReg register_x)
    | 0x1E => some (Instruction.AddIReg register_x)
    | 0x29 => some (Instruction.SetISpriteReg register_x)
    | 0x33 => some (Instruction.BCD register_x)
    | 0x55 => some (Instruction.Dump register_x)
    | 0x65 => some (Instruction.Load register_x)
    | _ => none
  | _ => none

/-- The exact set of opcodes on which decode panics: an unknown
secondary-dispatch value within the 0x8, 0xE or 0xF families
(the unimplemented!/unreachable! arms of the source). -/
def decodeFatal (opcode : Nat) : Prop :=
  (opcode &&& 0xF000 = 0x8000 ∧
    opcode &&& 0xF ∉ ([0, 1, 2, 3, 4, 5, 6, 7, 0xE] : List Nat)) ∨
  (opcode &&& 0xF000 = 0xE000 ∧
    opcode &&& 0xFF ∉ ([0x9E, 0xA1] : List Nat)) ∨
  (opcode &&& 0xF000 = 0xF000 ∧
    opcode &&& 0xFF ∉ ([0x07, 0x0A, 0x15, 0x18, 0x1E, 0x29, 0x33, 0x55, 0x65] : List Nat))

instance (opcode : Nat) : Decidable (decodeFatal opcode) := by
  unfold decodeFatal
  infer_instance

/-! ### Bitmask arithmetic helpers -/

theorem and_fff (x : Nat) : x &&& 0xFFF = x % 4096 := by
  have h := Nat.and_pow_two_sub_one_eq_mod x 12
  norm_num at h
  exact h

theorem and_ff (x : Nat) : x &&& 0xFF = x % 256 := by
  have h := Nat.and_pow_two_sub_one_eq_mod x 8
  norm_num at h
  exact h

theorem and_f (x : Nat) : x &&& 0xF = x % 16 := by
  have h := Nat.and_pow_two_sub_one_eq_mod x 4
  norm_num at h
  exact h

/-- The high-nibble mask: x &&& 0xF000 keeps bits 12-15. -/
theorem and_f000 (x : Nat) : x &&& 0xF000 = x / 4096 % 16 * 4096 := by
  apply Nat.eq_of_testBit_eq
  intro i
  have h1 : (0xF000 : Nat) = 15 <<< 12 := by
    rw [Nat.shiftLeft_eq]
  have h2 : x / 4096 % 16 * 4096 = ((x >>> 12) &&& 15) <<< 12 := by
    rw [Nat.shiftLeft_eq, Nat.shiftRight_eq_div_pow, and_f]
  rw [h1, h2]
  simp only [Nat.testBit_and, Nat.testBit_shiftLeft, Nat.testBit_shiftRight]
  by_cases hi : 12 ≤ i
  · have hadd : 12 + (i - 12) = i := by omega
    simp only [ge_iff_le, hi, hadd, decide_True, Bool.true_and]
  · have hgi : ¬ (i ≥ 12) := hi
    simp [hgi]

/-- decode fails (panics) exactly on the fatal set. -/
theorem decode_eq_none_iff (opcode : Nat) (h : opcode < 65536) :
    decode opcode = none ↔ decodeFatal opcode := by
  unfold decode decodeFatal
  split
  · rename_i heq
    dsimp only
    split <;> simp [heq]
  · rename_i heq
    simp [heq]
  · rename_i heq
    simp [heq]
  · rename_i heq
    simp [heq]
  · rename_i heq
    simp [heq]
  · rename_i heq
    simp [heq]
  · rename_i heq
    simp [heq]
  · rename_i heq
    simp [heq]
  · rename_i heq
    dsimp only
    split <;> rename_i heq2 <;> simp [heq, heq2, List.mem_cons]
    rename_i h0 h1 h2 h3 h4 h5 h6 h7
    exact ⟨h0, h1, h2, h3, h4, h5, h6, h7, heq2⟩
  · rename_i heq
    simp [heq]
  · rename_i heq
    simp [heq]
  · rename_i heq
    simp [heq]
  · rename_i heq
    simp [heq]
  · rename_i heq
    simp [heq]
  · rename_i heq
    dsimp only
    split <;> rename_i heq2 <;> simp [heq, heq2, List.mem_cons]
    rename_i h0
    exact ⟨h0, heq2⟩
  · rename_i heq
    dsimp only
    split <;> rename_i heq2 <;> simp [heq, heq2, List.mem_cons]
    rename_i h0 h1 h2 h3 h4 h5 h6 h7
    exact ⟨h0, h1, h2, h3, h4, h5, h6, h7, heq2⟩
  · rename_i hne0 hne1 hne2 hne3 hne4 hne5 hne6 hne7 hne8 hne9 hneA hneB hneC hneD hneE hneF
    exfalso
    have g0 : opcode &&& 0xF000 ≠ 0x0000 := hne0
    have g1 : opcode &&& 0xF000 ≠ 0x1000 := hne1
    have g2 : opcode &&& 0xF000 ≠ 0x2000 := hne2
    have g3 : opcode &&& 0xF000 ≠ 0x3000 := hne3
    have g4 : opcode &&& 0xF000 ≠ 0x4000 := hne4
    have g5 : opcode &&& 0xF000 ≠ 0x5000 := hne5
    have g6 : opcode &&& 0xF000 ≠ 0x6000 := hne6
    have g7 : opcode &&& 0xF000 ≠ 0x7000 := hne7
    have g8 : opcode &&& 0xF000 ≠ 0x8000 := hne8
    have g9 : opcode &&& 0xF000 ≠ 0x9000 := hne9
    have gA : opcode &&& 0xF000 ≠ 0xA000 := hneA
    have gB : opcode &&& 0xF000 ≠ 0xB000 := hneB
    have gC : opcode &&& 0xF000 ≠ 0xC000 := hneC
    have gD : opcode &&& 0xF000 ≠ 0xD000 := hneD
    have gE : opcode &&& 0xF000 ≠ 0xE000 := hneE
    have gF : opcode &&& 0xF000 ≠ 0xF000 := hneF
    rw [and_f000] at g0 g1 g2 g3 g4 g5 g6 g7 g8 g9 gA gB gC gD gE gF
    omega

/-- In the 0x0 family, the low 12 bits select Clear (0xE0), Ret (0xEE),
or the no-op fallback (anything else). -/
theorem decode_zero_family (opcode : Nat) (h0 : opcode &&& 0xF000 = 0) :
    (opcode &&& 0xFFF = 0xE0 → decode opcode = some Instruction.Clear) ∧
    (opcode &&& 0xFFF = 0xEE → decode opcode = some Instruction.Ret) ∧
    (opcode &&& 0xFFF ≠ 0xE0 → opcode &&& 0xFFF ≠ 0xEE →
      decode opcode = some Instruction.NoOp) := by
  unfold decode
  split
  · rename_i heq
    dsimp only
    split
    · rename_i heq2
      simp [heq2]
    · rename_i heq2
      simp [heq2]
    · rename_i h224 heq2
      exact ⟨fun hc => absurd hc h224, fun hc => absurd hc heq2, fun h1 h2 => rfl⟩
  · rename_i heq
    rw [heq] at h0
    omega
  · rename_i heq
    rw [heq] at h0
    omega
  · rename_i heq
    rw [heq] at h0
    omega
  · rename_i heq
    rw [heq] at h0
    omega
  · rename_i heq
    rw [heq] at h0
    omega
  · rename_i heq
    rw [heq] at h0
    omega
  · rename_i heq
    rw [heq] at h0
    omega
  · rename_i heq
    rw [heq] at h0
    omega
  · rename_i heq
    rw [heq] at h0
    omega
  · rename_i heq
    rw [heq] at h0
    omega
  · rename_i heq
    rw [heq] at h0
    omega
  · rename_i heq
    rw [heq] at h0
    omega
  · rename_i heq
    rw [heq] at h0
    omega
  · rename_i heq
    rw [heq] at h0
    omega
  · rename_i heq
    rw [heq] at h0
    omega
  · rename_i i0 i1 i2 i3 i4 i5 i6 i7 i8 i9 iA iB iC iD iE iF
    exact absurd h0 i0

/-- C1 (amended): decode is pure and deterministic, but not total: it
returns exactly one Instruction variant for every 16-bit opcode except
the unknown secondary-dispatch values of the 0x8, 0xE and 0xF families,
on which it fails (a fatal decode error, none in the model).  Every
0x0nnn opcode whose low 12 bits are neither 0xE0 nor 0xEE decodes to the
no-op variant, while 0x00E0 decodes to Clear and 0x00EE to Ret. -/
theorem decode_totality_amended (opcode : Nat) (h : opcode < 65536) :
    (decode opcode = none ↔ decodeFatal opcode) ∧
    (opcode &&& 0xF000 = 0 →
      (opcode &&& 0xFFF = 0xE0 → decode opcode = some Instruction.Clear) ∧
      (opcode &&& 0xFFF = 0xEE → decode opcode = some Instruction.Ret) ∧
      (opcode &&& 0xFFF ≠ 0xE0 → opcode &&& 0xFFF ≠ 0xEE →
        decode opcode = some Instruction.NoOp)) :=
  ⟨decode_eq_none_iff opcode h, decode_zero_family opcode⟩

/-- C1 counterexample: 0x8008 is a 16-bit opcode on which decode does
not return an instruction: it hits the unimplemented! arm (a panic),
so decode is not total as the claim states. -/
theorem decode_not_total_cex :
    0x8008 < 65536 ∧ decode 0x8008 = none := by
  exact ⟨by norm_num, rfl⟩

/-- Witness for decode_totality_amended at the concrete 16-bit opcode 0x00E0. -/
theorem decode_totality_amended_witness :
    (decode 0x00E0 = none ↔ decodeFatal 0x00E0) ∧
    (0x00E0 &&& 0xF000 = 0 →
      (0x00E0 &&& 0xFFF = 0xE0 → decode 0x00E0 = some Instruction.Clear) ∧
      (0x00E0 &&& 0xFFF = 0xEE → decode 0x00E0 = some Instruction.Ret) ∧
      (0x00E0 &&& 0xFFF ≠ 0xE0 → 0x00E0 &&& 0xFFF ≠ 0xEE →
        decode 0x00E0 = some Instruction.NoOp)) :=
  decode_totality_amended 0x00E0 (by norm_num)

/-! ## The CPU engine (chip8.rs)

The machine state.  registers and memory are total functions Nat → Nat;
the Rust arrays are [u8; 16] and [u8; 4096], and every register index the
engine ever uses comes from a 4-bit decoder field, so it is < 16.  Byte
values are reduced mod 256 exactly where the Rust u8 arithmetic wraps.
u16 arithmetic on program_counter and i is reduced mod 65536 (the wrapping
semantics of release-mode Rust); the wrapping subtractions target - 2 of
the source are written (target + 65536 - 2) % 65536.  The Vec stack is a
list with its top at the head.  The panic of stack.pop().unwrap() on an
empty stack is modelled as none. -/

structure Chip8 where
  program_counter : Nat
  registers : Nat → Nat
  stack : List Nat
  i : Nat
  memory : Nat → Nat
  sound_timer : Nat
  delay_timer : Nat

def PROGRAM_START_ADDRESS : Nat := 0x200
def SCREEN_WIDTH : Nat := 64
def SCREEN_HEIGHT : Nat := 32
def SPRITE_WIDTH : Nat := 8
def PIXEL_ON : Nat := 255
def PIXEL_OFF : Nat := 0

def FONT : List Nat :=
  [0xF0, 0x90, 0x90, 0x90, 0xF0,
   0x20, 0x60, 0x20, 0x20, 0x70,
   0xF0, 0x10, 0xF0, 0x80, 0xF0,
   0xF0, 0x10, 0xF0, 0x10, 0xF0,
   0x90, 0x90, 0xF0, 0x10, 0x10,
   0xF0, 0x80, 0xF0, 0x10, 0xF0,
   0xF0, 0x80, 0xF0, 0x90, 0xF0,
   0xF0, 0x10, 0x20, 0x40, 0x40,
   0xF0, 0x90, 0xF0, 0x90, 0xF0,
   0xF0, 0x90, 0xF0, 0x10, 0xF0,
   0xF0, 0x90, 0xF0, 0x90, 0x90,
   0xE0, 0x90, 0xE0, 0x90, 0xE0,
   0xF0, 0x80, 0x80, 0x80, 0xF0,
   0xE0, 0x90, 0x90, 0x90, 0xE0,
   0xF0, 0x80, 0xF0, 0x80, 0xF0,
   0xF0, 0x80, 0xF0, 0x80, 0x80]

/-- Chip8::new: font at 0x000, everything else zeroed, pc = 0x200. -/
def Chip8.new : Chip8 where
  program_counter := 0x200
  registers := fun _ => 0
  stack := []
  i := 0
  memory := fun a => if a < FONT.length then FONT.getD a 0 else 0
  sound_timer := 0
  delay_timer := 0

/-- Chip8::load_rom: copy the ROM bytes verbatim to memory from 0x200. -/
def load_rom (st : Chip8) (rom : List Nat) : Chip8 :=
  { st with memory := fun a =>
      if PROGRAM_START_ADDRESS ≤ a ∧ a < PROGRAM_START_ADDRESS + rom.length
      then rom.getD (a - PROGRAM_START_ADDRESS) 0
      else st.memory a }

/-- Chip8::update_timers: saturating_sub 1 on both timers
(Nat subtraction is saturating). -/
def update_timers (st : Chip8) : Chip8 :=
  { st with delay_timer := st.delay_timer - 1, sound_timer := st.sound_timer - 1 }

def get_register (st : Chip8) (register : Nat) : Nat :=
  st.registers register

def set_register (st : Chip8) (register value : Nat) : Chip8 :=
  { st with registers := fun j => if j = register then value else st.registers j }

/-- Chip8::get_opcode: big-endian fetch of two bytes at the program counter.
The % 256 expresses that the memory cells are u8. -/
def get_opcode (st : Chip8) : Nat :=
  ((st.memory st.program_counter % 256) <<< 8) |||
    (st.memory (st.program_counter + 1) % 256)

/-- u8::reverse_bits: bit k of the result is bit 7-k of the input. -/
def reverse_bits (b : Nat) : Nat :=
  (List.range 8).foldl (fun acc k => acc ||| (if b.testBit k then 1 <<< (7 - k) else 0)) 0

/-- Chip8::get_sprite_pixel: test bit col of the reversed sprite-row byte
at memory[i + row] (so col 0 is the most significant source bit). -/
def get_sprite_pixel (st : Chip8) (row col : Nat) : Bool :=
  decide (reverse_bits (st.memory (st.i + row) % 256) &&& (1 <<< col) ≠ 0)

/-- One byte of a 4-byte pixel group in the Draw arm: the collision test
on the current byte, then the XOR with 0xFF or 0x00. -/
def xorByte (pixel_to_xor : Bool) (s : (Nat → Nat) × Bool) (j : Nat) :
    (Nat → Nat) × Bool :=
  ((fun k => if k = j then Nat.xor (s.1 j) (if pixel_to_xor then PIXEL_ON else PIXEL_OFF)
             else s.1 k),
   if s.1 j ≠ 0 ∧ pixel_to_xor = true then true else s.2)

/-- The nested row/column/byte loops of the Draw arm (chip8.rs 183-201),
acting on the pixel buffer and the collision flag. -/
def drawSprite (st : Chip8) (origin_x origin_y sprite_height : Nat)
    (pixels : Nat → Nat) : (Nat → Nat) × Bool :=
  (List.range sprite_height).foldl (fun s row =>
    (List.range SPRITE_WIDTH).foldl (fun s col =>
      let pixel_to_xor := get_sprite_pixel st row col
      let x := (col + origin_x) % SCREEN_WIDTH
      let y := (row + origin_y) % SCREEN_HEIGHT
      let index := 4 * x + y * 4 * 64
      ((List.range 4).map (fun b => index + b)).foldl (xorByte pixel_to_xor) s) s)
    (pixels, false)

/-- key_states.iter().enumerate().find(|(_, &key)| key): the index of the
first pressed key, scanning from index idx. -/
def findFirstKey : List Bool → Nat → Option Nat
  | [], _ => none
  | k :: rest, idx => if k then some idx else findFirstKey rest (idx + 1)

/-- The match arm dispatch of Chip8::step (chip8.rs 77-254), before the
trailing uniform pc increment.  randByte stands for the byte drawn from
rand::thread_rng() in the SetRegRand arm.  key access uses getD false;
the decoder only produces register fields < 16, matching the Rust
key_states: &[bool; 16]. -/
def execInstr (inst : Instruction) (st : Chip8) (pixels : Nat → Nat)
    (key_states : List Bool) (randByte : Nat) : Option (Chip8 × (Nat → Nat)) :=
  match inst with
  | .NoOp => some (st, pixels)
  | .Clear => some (st, fun j => if j < SCREEN_WIDTH * SCREEN_HEIGHT * 4 then PIXEL_OFF else pixels j)
  | .Ret =>
    match st.stack with
    | [] => none
    | addr :: rest =>
      some ({ st with program_counter := (addr + 65536 - 2) % 65536, stack := rest }, pixels)
  | .Jmp address =>
    some ({ st with program_counter := (address + 65536 - 2) % 65536 }, pixels)
  | .Call address =>
    some ({ st with stack := (st.program_counter + 2) % 65536 :: st.stack,
                    program_counter := (address + 65536 - 2) % 65536 }, pixels)
  | .RegEqVal register value =>
    if get_register st register = value
    then some ({ st with program_counter := (st.program_counter + 2) % 65536 }, pixels)
    else some (st, pixels)
  | .RegNeqVal register value =>
    if get_register st register ≠ value
    then some ({ st with program_counter := (st.program_counter + 2) % 65536 }, pixels)
    else some (st, pixels)
  | .RegEqReg x y =>
    if get_register st x = get_register st y
    then some ({ st with program_counter := (st.program_counter + 2) % 65536 }, pixels)
    else some (st, pixels)
  | .SetRegVal register value => some (set_register st register value, pixels)
  | .AddRegVal register value =>
    some (set_register st register ((get_register st register + value) % 256), pixels)
  | .SetRegReg x y => some (set_register st x (get_register st y), pixels)
  | .SetRegOrReg x y =>
    some (set_register st x (get_register st x ||| get_register st y), pixels)
  | .SetRegAndReg x y =>
    some (set_register st x (get_register st x &&& get_register st y), pixels)
  | .SetRegXorReg x y =>
    some (set_register st x (Nat.xor (get_register st x) (get_register st y)), pixels)
  | .AddRegReg x y =>
    let xv := get_register st x
    let yv := get_register st y
    let new_x := (xv + yv) % 256
    let is_carry := 255 < xv + yv
    some (set_register (set_register st x new_x) 0xF (if is_carry then 1 else 0), pixels)
  | .SubRegReg x y =>
    let xv := get_register st x
    let yv := get_register st y
    let new_x := (xv + 256 - yv) % 256
    let is_borrow := xv < yv
    some (set_register (set_register st x new_x) 0xF (if is_borrow then 0 else 1), pixels)
  | .ShiftRegRight register =>
    let st1 := set_register st 0xF (get_register st register &&& 1)
    some (set_register st1 register (get_register st1 register >>> 1), pixels)
  | .RevRegSubReg x y =>
    let xv := get_register st x
    let yv := get_register st y
    let new_x := (yv + 256 - xv) % 256
    let is_borrow := yv < xv
    some (set_register (set_register st x new_x) 0xF (if is_borrow then 0 else 1), pixels)
  | .ShiftRegLeft register =>
    let st1 := set_register st 0xF ((get_register st register &&& 0x80) >>> 7)
    some (set_register st1 register ((get_register st1 register <<< 1) % 256), pixels)
  | .RegNeqReg x y =>
    if get_register st x ≠ get_register st y
    then some ({ st with program_counter := (st.program_counter + 2) % 65536 }, pixels)
    else some (st, pixels)
  | .SetI address => some ({ st with i := address }, pixels)
  | .SetRegRand register value =>
    some (set_register st register ((randByte % 256) &&& value), pixels)
  | .JmpOffset address =>
    some ({ st with program_counter := (get_register st 0 + address + 65536 - 2) % 65536 }, pixels)
  | .Draw x y sprite_height =>
    let origin_x := get_register st x
    let origin_y := get_register st y
    let res := drawSprite st origin_x origin_y sprite_height pixels
    some (set_register st 0xF (if res.2 then 1 else 0), res.1)
  | .KeyDown register =>
    if key_states.getD register false
    then some ({ st with program_counter := (st.program_counter + 2) % 65536 }, pixels)
    else some (st, pixels)
  | .KeyUp register =>
    if !(key_states.getD register false)
    then some ({ st with program_counter := (st.program_counter + 2) % 65536 }, pixels)
    else some (st, pixels)
  | .SetRegDelay register => some (set_register st register st.delay_timer, pixels)
  | .SetRegKey register =>
    match findFirstKey key_states 0 with
    | some value => some (set_register st register value, pixels)
    | none =>
      some ({ st with program_counter := (st.program_counter + 65536 - 2) % 65536 }, pixels)
  | .SetDelayReg register => some ({ st with delay_timer := get_register st register }, pixels)
  | .SetSoundReg register => some ({ st with sound_timer := get_register st register }, pixels)
  | .AddIReg register =>
    some ({ st with i := (st.i + get_register st register) % 65536 }, pixels)
  | .SetISpriteReg register =>
    some ({ st with i := 5 * get_register st register % 65536 }, pixels)
  | .BCD register =>
    let value := get_register st register
    let m1 := fun a => if a = st.i + 2 then value % 10 else st.memory a
    let m2 := fun a => if a = st.i + 1 then value / 10 % 10 else m1 a
    let m3 := fun a => if a = st.i then value / 10 / 10 % 10 else m2 a
    some ({ st with memory := m3 }, pixels)
  | .Dump register =>
    some ({ st with memory := fun a =>
      if st.i ≤ a ∧ a ≤ st.i + register then st.registers (a - st.i) else st.memory a }, pixels)
  | .Load register =>
    some ({ st with registers := fun j =>
      if j ≤ register then st.memory (st.i + j) else st.registers j }, pixels)

/-- Chip8::step: fetch, decode, dispatch, then the uniform trailing
program-counter increment by 2.  none models a panic (fatal decode error
or stack underflow). -/
def step (st : Chip8) (pixels : Nat → Nat) (key_states : List Bool)
    (randByte : Nat) : Option (Chip8 × (Nat → Nat)) :=
  match decode (get_opcode st) with
  | none => none
  | some inst =>
    match execInstr inst st pixels key_states randByte with
    | none => none
    | some (st1, pixels1) =>
      some ({ st1 with program_counter := (st1.program_counter + 2) % 65536 }, pixels1)

/-! ## C2: AddRegReg -/

/-- C2 counterexample state: register 0xF holds 1 and register 0 holds 1. -/
def c2CexSt : Chip8 :=
  { Chip8.new with registers := fun j => if j = 0xF then 1 else if j = 0 then 1 else 0 }

/-- C2 counterexample: executing AddRegReg(x = 0xF, y = 0) with register
0xF holding 1 and register 0 holding 1 leaves register x = 0xF holding 0
(the carry flag, written last), not (1 + 1) mod 256 = 2 as the claim
requires of register x. -/
theorem addRegReg_claim_cex :
    c2CexSt.registers 0xF = 1 ∧ c2CexSt.registers 0 = 1 ∧
    (execInstr (Instruction.AddRegReg 0xF 0) c2CexSt (fun _ => 0) [] 0).map
      (fun q => q.1.registers 0xF) = some 0 ∧ (0 : Nat) ≠ (1 + 1) % 256 := by
  refine ⟨rfl, rfl, by decide, by norm_num⟩

/-- C2 (amended): for all 8-bit a and b, AddRegReg(x, y) with register x
holding a and register y holding b always leaves register 0xF equal to 1
iff a + b > 255 (else 0), and sets register x to (a + b) mod 256 provided
x is not the flag register 0xF itself (in that case the flag, written
second, overwrites the sum). -/
theorem addRegReg_amended (st : Chip8) (pixels : Nat → Nat) (keys : List Bool)
    (rb x y a b : Nat) (ha : get_register st x = a) (hb : get_register st y = b)
    (ha8 : a < 256) (hb8 : b < 256) :
    ((execInstr (Instruction.AddRegReg x y) st pixels keys rb).map
        (fun q => q.1.registers 0xF) = some (if 255 < a + b then 1 else 0)) ∧
    (x ≠ 0xF →
      (execInstr (Instruction.AddRegReg x y) st pixels keys rb).map
        (fun q => q.1.registers x) = some ((a + b) % 256)) := by
  simp only [get_register] at ha hb
  constructor
  · simp [execInstr, set_register, get_register, ha, hb]
  · intro hx
    simp [execInstr, set_register, get_register, ha, hb, hx]

/-- Witness for addRegReg_amended: registers 1 and 2 holding 200 and 100. -/
def c2WitSt : Chip8 :=
  { Chip8.new with registers := fun j => if j = 1 then 200 else if j = 2 then 100 else 0 }

theorem addRegReg_amended_witness :
    ((execInstr (Instruction.AddRegReg 1 2) c2WitSt (fun _ => 0) [] 0).map
        (fun q => q.1.registers 0xF) = some (if 255 < 200 + 100 then 1 else 0)) ∧
    (1 ≠ 0xF →
      (execInstr (Instruction.AddRegReg 1 2) c2WitSt (fun _ => 0) [] 0).map
        (fun q => q.1.registers 1) = some ((200 + 100) % 256)) :=
  addRegReg_amended c2WitSt (fun _ => 0) [] 0 1 2 200 100 rfl rfl
    (by norm_num) (by norm_num)

/-! ## C3: SubRegReg -/

/-- C3 counterexample state: register 0xF holds 5 and register 0 holds 3. -/
def c3CexSt : Chip8 :=
  { Chip8.new with registers := fun j => if j = 0xF then 5 else if j = 0 then 3 else 0 }

/-- C3 counterexample: executing SubRegReg(x = 0xF, y = 0) with register
0xF holding 5 and register 0 holding 3 leaves register x = 0xF holding 1
(the no-borrow flag, written last), not (5 - 3) mod 256 = 2 as the claim
requires of register x. -/
theorem subRegReg_claim_cex :
    c3CexSt.registers 0xF = 5 ∧ c3CexSt.registers 0 = 3 ∧
    (execInstr (Instruction.SubRegReg 0xF 0) c3CexSt (fun _ => 0) [] 0).map
      (fun q => q.1.registers 0xF) = some 1 ∧ (1 : Nat) ≠ (5 - 3) % 256 := by
  refine ⟨rfl, rfl, by decide, by norm_num⟩

/-- C3 (amended): for all 8-bit a and b, SubRegReg(x, y) with register x
holding a and register y holding b always leaves register 0xF equal to 1
iff a ≥ b (no borrow; the inverse of the usual carry convention), and sets
register x to the wrapped difference (a + 256 - b) mod 256 = (a - b) mod 256
provided x is not the flag register 0xF itself (in that case the flag,
written second, overwrites the difference). -/
theorem subRegReg_amended (st : Chip8) (pixels : Nat → Nat) (keys : List Bool)
    (rb x y a b : Nat) (ha : get_register st x = a) (hb : get_register st y = b)
    (ha8 : a < 256) (hb8 : b < 256) :
    ((execInstr (Instruction.SubRegReg x y) st pixels keys rb).map
        (fun q => q.1.registers 0xF) = some (if b ≤ a then 1 else 0)) ∧
    (x ≠ 0xF →
      (execInstr (Instruction.SubRegReg x y) st pixels keys rb).map
        (fun q => q.1.registers x) = some ((a + 256 - b) % 256)) := by
  simp only [get_register] at ha hb
  constructor
  · rcases Nat.lt_or_ge a b with hab | hab
    · simp [execInstr, set_register, get_register, ha, hb, hab, Nat.not_le.mpr hab]
    · simp [execInstr, set_register, get_register, ha, hb, Nat.not_lt.mpr hab, hab]
  · intro hx
    simp [execInstr, set_register, get_register, ha, hb, hx]

/-- Witness for subRegReg_amended: registers 1 and 2 holding 3 and 5
(a borrow occurs: flag 0, result wraps to 254). -/
def c3WitSt : Chip8 :=
  { Chip8.new with registers := fun j => if j = 1 then 3 else if j = 2 then 5 else 0 }

theorem subRegReg_amended_witness :
    ((execInstr (Instruction.SubRegReg 1 2) c3WitSt (fun _ => 0) [] 0).map
        (fun q => q.1.registers 0xF) = some (if 5 ≤ 3 then 1 else 0)) ∧
    (1 ≠ 0xF →
      (execInstr (Instruction.SubRegReg 1 2) c3WitSt (fun _ => 0) [] 0).map
        (fun q => q.1.registers 1) = some ((3 + 256 - 5) % 256)) :=
  subRegReg_amended c3WitSt (fun _ => 0) [] 0 1 2 3 5 rfl rfl
    (by norm_num) (by norm_num)

/-! ## C4: shifts -/

/-- C4 counterexample state: register 0xF holds 2. -/
def c4CexSt : Chip8 :=
  { Chip8.new with registers := fun j => if j = 0xF then 2 else 0 }

/-- C4 counterexample: executing ShiftRegRight(r = 0xF) with register 0xF
holding 2 leaves register r = 0xF holding 0: the flag (the shifted-out
bit 0 of 2, i.e. 0) is written first and is then itself shifted right,
so register r does not hold its claimed shifted value 2 >>> 1 = 1. -/
theorem shift_claim_cex :
    c4CexSt.registers 0xF = 2 ∧
    (execInstr (Instruction.ShiftRegRight 0xF) c4CexSt (fun _ => 0) [] 0).map
      (fun q => q.1.registers 0xF) = some 0 ∧ (0 : Nat) ≠ 2 / 2 := by
  refine ⟨rfl, by decide, by norm_num⟩

/-- C4 (amended): for every target register r other than the flag register
0xF, with register r holding the 8-bit value a: ShiftRegRight(r) sets
register r to a / 2 and register 0xF to a mod 2 (the least significant,
shifted-out bit of the pre-shift value), and ShiftRegLeft(r) sets register
r to (a * 2) mod 256 and register 0xF to a / 128 (the most significant,
shifted-out bit of the pre-shift value); the flag is captured before the
shift is applied.  For r = 0xF the flag write precedes the shift of the
same register, so the shift clobbers the captured flag. -/
theorem shift_amended (st : Chip8) (pixels : Nat → Nat) (keys : List Bool)
    (rb r a : Nat) (hr : r ≠ 0xF) (ha : get_register st r = a) (ha8 : a < 256) :
    ((execInstr (Instruction.ShiftRegRight r) st pixels keys rb).map
        (fun q => (q.1.registers r, q.1.registers 0xF)) = some (a / 2, a % 2)) ∧
    ((execInstr (Instruction.ShiftRegLeft r) st pixels keys rb).map
        (fun q => (q.1.registers r, q.1.registers 0xF)) = some (a * 2 % 256, a / 128)) := by
  simp only [get_register] at ha
  have hr2 : (15 : Nat) ≠ r := Ne.symm hr
  have h80 : a &&& 0x80 = a / 128 * 128 := by
    have ht := Nat.and_two_pow a 7
    norm_num at ht
    rw [ht, Nat.testBit_to_div_mod]
    norm_num
    have h2 : a / 128 = 0 ∨ a / 128 = 1 := by omega
    rcases h2 with h | h <;> simp [h]
  constructor
  · have h1 : a &&& 1 = a % 2 := Nat.and_one_is_mod a
    have h2 : a >>> 1 = a / 2 := by
      rw [Nat.shiftRight_eq_div_pow]
    simp [execInstr, set_register, get_register, ha, hr, hr2, h1, h2]
  · have h3 : (a &&& 0x80) >>> 7 = a / 128 := by
      rw [h80, Nat.shiftRight_eq_div_pow]
      norm_num
    have h4 : a <<< 1 = a * 2 := by
      rw [Nat.shiftLeft_eq]
    simp [execInstr, set_register, get_register, ha, hr, hr2, h3, h4]

/-- Witness for shift_amended: register 3 holding 0x81 = 129
(both shifted-out bits are 1). -/
def c4WitSt : Chip8 :=
  { Chip8.new with registers := fun j => if j = 3 then 129 else 0 }

theorem shift_amended_witness :
    ((execInstr (Instruction.ShiftRegRight 3) c4WitSt (fun _ => 0) [] 0).map
        (fun q => (q.1.registers 3, q.1.registers 0xF)) = some (129 / 2, 129 % 2)) ∧
    ((execInstr (Instruction.ShiftRegLeft 3) c4WitSt (fun _ => 0) [] 0).map
        (fun q => (q.1.registers 3, q.1.registers 0xF)) = some (129 * 2 % 256, 129 / 128)) :=
  shift_amended c4WitSt (fun _ => 0) [] 0 3 129 (by norm_num) rfl (by norm_num)

/-! ## C10: arithmetic with the flag register as target -/

/-- C10: when the target register x of AddRegReg, SubRegReg or
RevRegSubReg is the flag register 0xF itself, the value of register 0xF
after the dispatch is the carry / no-borrow flag, not the arithmetic
result: the flag is written after the result into the same register. -/
theorem flag_target_overwritten (st : Chip8) (pixels : Nat → Nat)
    (keys : List Bool) (rb y : Nat) :
    ((execInstr (Instruction.AddRegReg 0xF y) st pixels keys rb).map
        (fun q => q.1.registers 0xF) =
      some (if 255 < get_register st 0xF + get_register st y then 1 else 0)) ∧
    ((execInstr (Instruction.SubRegReg 0xF y) st pixels keys rb).map
        (fun q => q.1.registers 0xF) =
      some (if get_register st 0xF < get_register st y then 0 else 1)) ∧
    ((execInstr (Instruction.RevRegSubReg 0xF y) st pixels keys rb).map
        (fun q => q.1.registers 0xF) =
      some (if get_register st y < get_register st 0xF then 0 else 1)) := by
  refine ⟨?_, ?_, ?_⟩ <;> simp [execInstr, set_register, get_register]

/-! ## C8: Return with an empty call stack -/

/-- C8: executing Return with an empty call stack is fatal: step is none
(the model of the stack.pop().unwrap() panic), never a silent no-op. -/
theorem ret_empty_stack_fatal (st : Chip8) (pixels : Nat → Nat)
    (keys : List Bool) (rb : Nat)
    (hdec : decode (get_opcode st) = some Instruction.Ret)
    (hstack : st.stack = []) :
    step st pixels keys rb = none := by
  unfold step
  rw [hdec]
  unfold execInstr
  rw [hstack]

/-- C8 witness state: a fresh machine with the ROM 0x00EE (Ret) and an
empty call stack. -/
def c8WitSt : Chip8 := load_rom Chip8.new [0x00, 0xEE]

theorem ret_empty_stack_fatal_witness :
    step c8WitSt (fun _ => 0) (List.replicate 16 false) 0 = none :=
  ret_empty_stack_fatal c8WitSt (fun _ => 0) (List.replicate 16 false) 0
    (by decide) rfl

/-! ## C7: SetRegKey key-wait -/

theorem findFirstKey_all_false (keys : List Bool) (idx : Nat)
    (h : ∀ b ∈ keys, b = false) : findFirstKey keys idx = none := by
  induction keys generalizing idx with
  | nil => rfl
  | cons k rest ih =>
    have hk : k = false := h k (by simp)
    simp only [findFirstKey, hk, Bool.false_eq_true, if_false]
    exact ih _ (fun b hb => h b (by simp [hb]))

theorem findFirstKey_lowest (keys : List Bool) (idx v : Nat)
    (htrue : keys.getD v false = true)
    (hlow : ∀ w, w < v → keys.getD w false = false) :
    findFirstKey keys idx = some (idx + v) := by
  induction keys generalizing idx v with
  | nil => simp [List.getD] at htrue
  | cons k rest ih =>
    cases v with
    | zero =>
      simp only [List.getD_cons_zero] at htrue
      simp [findFirstKey, htrue]
    | succ v =>
      have hk : k = false := by
        have h0 := hlow 0 (Nat.succ_pos v)
        simpa using h0
      have hrec := ih (idx + 1) v (by simpa using htrue)
        (fun w hw => by simpa using hlow (w + 1) (by omega))
      simp only [findFirstKey, hk, Bool.false_eq_true, if_false, hrec]
      congr 1
      omega

/-- If the first v keys are all false, every index below v reads false. -/
theorem getD_of_take_replicate (keys : List Bool) (v w : Nat)
    (h : keys.take v = List.replicate v false) (hw : w < v) :
    keys.getD w false = false := by
  have h1 : (keys.take v).getD w false = keys.getD w false := by
    simp [List.getD, List.getElem?_take, hw]
  rw [h] at h1
  rw [← h1]
  simp [List.getD, List.getElem?_replicate, hw]

/-- C7: SetRegKey.  With all 16 keys false, one step leaves the program
counter unchanged (the arm rewinds by 2, the trailing increment adds 2),
so the same instruction is fetched again.  With a pressed key v whose
predecessors are all unpressed (the scan finds the lowest pressed index),
the step stores v in the target register and advances the program counter
by 2. -/
theorem setRegKey_spec (st : Chip8) (pixels : Nat → Nat) (rb x v : Nat)
    (keys : List Bool)
    (hdec : decode (get_opcode st) = some (Instruction.SetRegKey x))
    (hpc : st.program_counter + 2 < 65536) :
    (keys = List.replicate 16 false →
      (step st pixels keys rb).map (fun q => q.1.program_counter) =
        some st.program_counter) ∧
    (keys.getD v false = true → keys.take v = List.replicate v false →
      (step st pixels keys rb).map
          (fun q => (q.1.program_counter, q.1.registers x)) =
        some (st.program_counter + 2, v)) := by
  constructor
  · intro hkeys
    subst hkeys
    have hnone : findFirstKey (List.replicate 16 false) 0 = none := by decide
    have harith : ((st.program_counter + 65536 - 2) % 65536 + 2) % 65536 =
        st.program_counter := by omega
    unfold step
    rw [hdec]
    unfold execInstr
    rw [hnone]
    simp [harith]
    omega
  · intro htrue htake
    have hsome : findFirstKey keys 0 = some v := by
      have := findFirstKey_lowest keys 0 v htrue
        (fun w hw => getD_of_take_replicate keys v w htake hw)
      simpa using this
    unfold step
    rw [hdec]
    unfold execInstr
    rw [hsome]
    simp [set_register, Nat.mod_eq_of_lt hpc]

/-- C7 witness state: ROM 0xF30A (SetRegKey, target register 3). -/
def c7WitSt : Chip8 := load_rom Chip8.new [0xF3, 0x0A]

/-- Witness for setRegKey_spec: key 2 pressed, keys 0 and 1 not. -/
def c7Keys : List Bool :=
  [false, false, true, false, false, false, false, false,
   false, false, false, false, false, false, false, false]

theorem setRegKey_spec_witness :
    (c7Keys = List.replicate 16 false →
      (step c7WitSt (fun _ => 0) c7Keys 0).map (fun q => q.1.program_counter) =
        some c7WitSt.program_counter) ∧
    (c7Keys.getD 2 false = true → c7Keys.take 2 = List.replicate 2 false →
      (step c7WitSt (fun _ => 0) c7Keys 0).map
          (fun q => (q.1.program_counter, q.1.registers 3)) =
        some (c7WitSt.program_counter + 2, 2)) :=
  setRegKey_spec c7WitSt (fun _ => 0) 0 3 2 c7Keys (by decide) (by decide)

/-! ## C9: program counter and index register bounds -/

/-- decode only produces SetI with a 12-bit address (the 0x0FFF mask). -/
theorem decode_SetI_lt (opcode a : Nat)
    (h : decode opcode = some (Instruction.SetI a)) : a < 4096 := by
  unfold decode at h
  dsimp only at h
  split at h
  · split at h <;> simp at h
  · simp at h
  · simp at h
  · simp at h
  · simp at h
  · simp at h
  · simp at h
  · simp at h
  · split at h <;> simp at h
  · simp at h
  · simp only [Option.some.injEq, Instruction.SetI.injEq] at h
    rw [and_fff] at h
    omega
  · simp at h
  · simp at h
  · simp at h
  · split at h <;> simp at h
  · split at h <;> simp at h
  · simp at h

/-- After any successful dispatch, the index register stays 16-bit,
given that it was 16-bit and that any SetI operand is 16-bit. -/
theorem execInstr_i_lt (inst : Instruction) (st : Chip8) (pixels : Nat → Nat)
    (keys : List Bool) (rb : Nat) (st1 : Chip8) (p1 : Nat → Nat)
    (hi : st.i < 65536)
    (hSetI : ∀ a, inst = Instruction.SetI a → a < 65536)
    (h : execInstr inst st pixels keys rb = some (st1, p1)) :
    st1.i < 65536 := by
  cases inst <;>
    simp only [execInstr] at h <;>
    (try split at h) <;>
    (try simp only [Option.some.injEq, Prod.mk.injEq] at h)
  all_goals try exact (Option.noConfusion h)
  all_goals obtain ⟨h1, h2⟩ := h
  all_goals subst h1
  all_goals try exact hi
  all_goals try exact Nat.mod_lt _ (by norm_num)
  all_goals exact hSetI _ rfl

/-- C9 (amended): after every successful step, the program counter and
the index register remain 16-bit (< 65536, as u16 values), provided i was;
they are NOT guaranteed to stay within the 4096-byte memory: the uniform
post-step increment can push the program counter to 0x1000, and AddIReg
wraps i at 16 bits, not 12 (see the counterexample). -/
theorem step_bounds_amended (st : Chip8) (pixels : Nat → Nat)
    (keys : List Bool) (rb : Nat) (st1 : Chip8) (p1 : Nat → Nat)
    (hi : st.i < 65536)
    (h : step st pixels keys rb = some (st1, p1)) :
    st1.program_counter < 65536 ∧ st1.i < 65536 := by
  unfold step at h
  cases hdec : decode (get_opcode st) with
  | none =>
    rw [hdec] at h
    exact Option.noConfusion h
  | some inst =>
    rw [hdec] at h
    dsimp only at h
    cases hexe : execInstr inst st pixels keys rb with
    | none =>
      rw [hexe] at h
      exact Option.noConfusion h
    | some q =>
      rw [hexe] at h
      simp only [Option.some.injEq, Prod.mk.injEq] at h
      obtain ⟨h1, h2⟩ := h
      subst h1
      refine ⟨Nat.mod_lt _ (by norm_num), ?_⟩
      have hSetI : ∀ a, inst = Instruction.SetI a → a < 65536 := by
        intro a ha
        subst ha
        exact lt_of_lt_of_le (decode_SetI_lt _ a hdec) (by norm_num)
      exact execInstr_i_lt inst st pixels keys rb q.1 q.2 hi hSetI hexe

/-- C9 counterexample state 1: the ROM is the single jump 0x1FFE. -/
def c9CexSt : Chip8 := load_rom Chip8.new [0x1F, 0xFE]

/-- C9 counterexample state 2: SetI 0xFFF; SetRegVal r0 0xFF; AddIReg r0. -/
def c9CexSt2 : Chip8 := load_rom Chip8.new [0xAF, 0xFF, 0x60, 0xFF, 0xF0, 0x1E]

/-- C9 counterexample: from the freshly initialized machine with ROM
0x1FFE, the first step jumps to 0xFFE (a reachable state) and the second
step (a NoOp fall-through) leaves the program counter at 0x1000, which is
not a valid index into the 4096-byte memory; likewise SetI 0xFFF followed
by AddIReg of 0xFF leaves i = 0x10FE > 0xFFF. -/
theorem step_bounds_claim_cex :
    ((step c9CexSt (fun _ => 0) (List.replicate 16 false) 0).bind
        (fun q => step q.1 q.2 (List.replicate 16 false) 0)).map
        (fun q => q.1.program_counter) = some 0x1000 ∧
    ¬ ((0x1000 : Nat) ≤ 0xFFF) ∧
    (((step c9CexSt2 (fun _ => 0) (List.replicate 16 false) 0).bind
        (fun q => step q.1 q.2 (List.replicate 16 false) 0)).bind
        (fun q => step q.1 q.2 (List.replicate 16 false) 0)).map
        (fun q => q.1.i) = some 0x10FE ∧
    ¬ ((0x10FE : Nat) ≤ 0xFFF) := by
  refine ⟨by decide, by norm_num, by decide, by norm_num⟩

/-- C9 witness state: ROM 0x6005 (SetRegVal r0 5). -/
def c9WitSt : Chip8 := load_rom Chip8.new [0x60, 0x05]

def c9WitRes : Chip8 × (Nat → Nat) :=
  (step c9WitSt (fun _ => 0) (List.replicate 16 false) 0).getD (Chip8.new, fun _ => 0)

theorem step_bounds_amended_witness :
    c9WitRes.1.program_counter < 65536 ∧ c9WitRes.1.i < 65536 :=
  step_bounds_amended c9WitSt (fun _ => 0) (List.replicate 16 false) 0
    c9WitRes.1 c9WitRes.2 (by decide) rfl

/-! ## Draw characterization (C5, C6)

The nested Draw loops are re-expressed as a single fold over the list of
(row, col) cells, and characterized: each drawn byte is XORed with 255
exactly when its cell's sprite bit is set, and the collision flag reads
the pre-draw buffer.  This needs that distinct cells touch disjoint
4-byte groups, which holds because the wrapped coordinates are injective
for sprite_height ≤ 32. -/

/-- The framebuffer byte index of the 4-byte group drawn by cell
(row, col): 4 * ((col + ox) % 64) + ((row + oy) % 32) * 4 * 64. -/
def cellIndex (ox oy : Nat) (c : Nat × Nat) : Nat :=
  4 * ((c.2 + ox) % SCREEN_WIDTH) + ((c.1 + oy) % SCREEN_HEIGHT) * 4 * 64

/-- The (row, col) cells visited by the Draw loops, in loop order. -/
def cells (sprite_height : Nat) : List (Nat × Nat) :=
  (List.range sprite_height).flatMap (fun row => (List.range 8).map (fun col => (row, col)))

/-- The body of the per-cell column loop as a function of one cell. -/
def applyCell (st : Chip8) (ox oy : Nat) (s : (Nat → Nat) × Bool) (c : Nat × Nat) :
    (Nat → Nat) × Bool :=
  ((List.range 4).map (fun b => cellIndex ox oy c + b)).foldl
    (xorByte (get_sprite_pixel st c.1 c.2)) s

theorem foldl_flatMap {α β γ : Type} (f : γ → α → γ) (g : β → List α)
    (l : List β) (init : γ) :
    (l.flatMap g).foldl f init = l.foldl (fun acc b => (g b).foldl f acc) init := by
  induction l generalizing init with
  | nil => rfl
  | cons a l ih => simp [List.foldl_append, ih]

/-- drawSprite is the fold of applyCell over the cell list. -/
theorem drawSprite_eq_foldl (st : Chip8) (ox oy h : Nat) (p : Nat → Nat) :
    drawSprite st ox oy h p = (cells h).foldl (applyCell st ox oy) (p, false) := by
  unfold drawSprite cells
  rw [foldl_flatMap]
  simp only [List.foldl_map]
  rfl

theorem mem_cells (h r c : Nat) : (r, c) ∈ cells h ↔ r < h ∧ c < 8 := by
  simp [cells]

theorem cellIndex_dvd (ox oy : Nat) (c : Nat × Nat) : 4 ∣ cellIndex ox oy c := by
  unfold cellIndex
  exact ⟨(c.2 + ox) % SCREEN_WIDTH + ((c.1 + oy) % SCREEN_HEIGHT) * 64, by ring⟩

theorem cellIndex_lt (ox oy : Nat) (c : Nat × Nat) :
    cellIndex ox oy c + 4 ≤ 8192 := by
  unfold cellIndex SCREEN_WIDTH SCREEN_HEIGHT
  have h1 : (c.2 + ox) % 64 < 64 := Nat.mod_lt _ (by norm_num)
  have h2 : (c.1 + oy) % 32 < 32 := Nat.mod_lt _ (by norm_num)
  omega

theorem range_four_map (ix : Nat) :
    (List.range 4).map (fun b => ix + b) = [ix, ix + 1, ix + 2, ix + 3] := by
  simp [List.range_succ]

/-- The pixel buffer after one cell: the 4 bytes of the cell's group are
XORed with the cell's mask, all other bytes are untouched. -/
theorem applyCell_fst (st : Chip8) (ox oy : Nat) (s : (Nat → Nat) × Bool)
    (c : Nat × Nat) (j : Nat) :
    (applyCell st ox oy s c).1 j =
      if cellIndex ox oy c ≤ j ∧ j < cellIndex ox oy c + 4
      then Nat.xor (s.1 j)
        (if get_sprite_pixel st c.1 c.2 then PIXEL_ON else PIXEL_OFF)
      else s.1 j := by
  unfold applyCell
  rw [range_four_map]
  simp only [List.foldl_cons, List.foldl_nil, xorByte]
  split_ifs <;> first | rfl | omega | simp_all | (exfalso; omega)

set_option maxHeartbeats 1000000 in
theorem applyCell_snd_eq (st : Chip8) (ox oy : Nat) (s : (Nat → Nat) × Bool)
    (c : Nat × Nat) :
    (applyCell st ox oy s c).2 =
      (s.2 || (get_sprite_pixel st c.1 c.2 &&
        (decide (s.1 (cellIndex ox oy c) ≠ 0) ||
         decide (s.1 (cellIndex ox oy c + 1) ≠ 0) ||
         decide (s.1 (cellIndex ox oy c + 2) ≠ 0) ||
         decide (s.1 (cellIndex ox oy c + 3) ≠ 0)))) := by
  unfold applyCell
  rw [range_four_map]
  simp only [List.foldl_cons, List.foldl_nil]
  by_cases hbit : get_sprite_pixel st c.1 c.2 <;>
    by_cases h0 : s.1 (cellIndex ox oy c) = 0 <;>
    by_cases h1 : s.1 (cellIndex ox oy c + 1) = 0 <;>
    by_cases h2 : s.1 (cellIndex ox oy c + 2) = 0 <;>
    by_cases h3 : s.1 (cellIndex ox oy c + 3) = 0 <;>
    simp [xorByte, hbit, h0, h1, h2, h3]

/-- The collision flag after one cell: it becomes true iff it was, or the
cell's sprite bit is set and some byte of its group was nonzero before. -/
theorem applyCell_snd (st : Chip8) (ox oy : Nat) (s : (Nat → Nat) × Bool)
    (c : Nat × Nat) :
    ((applyCell st ox oy s c).2 = true ↔
      (s.2 = true ∨ (get_sprite_pixel st c.1 c.2 = true ∧
        ∃ b0, b0 < 4 ∧ s.1 (cellIndex ox oy c + b0) ≠ 0))) := by
  rw [applyCell_snd_eq]
  simp only [Bool.or_eq_true, Bool.and_eq_true, decide_eq_true_eq]
  constructor
  · rintro (h | ⟨hb, h⟩)
    · exact Or.inl h
    · refine Or.inr ⟨hb, ?_⟩
      rcases h with ((h | h) | h) | h
      · exact ⟨0, by omega, by simpa using h⟩
      · exact ⟨1, by omega, h⟩
      · exact ⟨2, by omega, h⟩
      · exact ⟨3, by omega, h⟩
  · rintro (h | ⟨hb, b0, hb0, hnz⟩)
    · exact Or.inl h
    · refine Or.inr ⟨hb, ?_⟩
      interval_cases b0
      · exact Or.inl (Or.inl (Or.inl (by simpa using hnz)))
      · exact Or.inl (Or.inl (Or.inr hnz))
      · exact Or.inl (Or.inr hnz)
      · exact Or.inr hnz

theorem natXor_zero (x : Nat) : Nat.xor x 0 = x := Nat.xor_zero x

theorem natXor_cancel (x y : Nat) : Nat.xor (Nat.xor x y) y = x := by
  show (x ^^^ y) ^^^ y = x
  rw [Nat.xor_assoc, Nat.xor_self, Nat.xor_zero]

/-- A framebuffer byte j is drawn-with-bit-set by the cell list L. -/
def coveredBit (st : Chip8) (ox oy : Nat) (L : List (Nat × Nat)) (j : Nat) : Prop :=
  ∃ c ∈ L, get_sprite_pixel st c.1 c.2 = true ∧
    cellIndex ox oy c ≤ j ∧ j < cellIndex ox oy c + 4

instance (st : Chip8) (ox oy : Nat) (L : List (Nat × Nat)) (j : Nat) :
    Decidable (coveredBit st ox oy L j) := by
  unfold coveredBit
  infer_instance

theorem coveredBit_nil (st : Chip8) (ox oy j : Nat) :
    ¬ coveredBit st ox oy [] j := by
  rintro ⟨c, hc, _⟩
  simp at hc

theorem coveredBit_cons (st : Chip8) (ox oy : Nat) (a : Nat × Nat)
    (L : List (Nat × Nat)) (j : Nat) :
    coveredBit st ox oy (a :: L) j ↔
      ((get_sprite_pixel st a.1 a.2 = true ∧
        cellIndex ox oy a ≤ j ∧ j < cellIndex ox oy a + 4) ∨
       coveredBit st ox oy L j) := by
  constructor
  · rintro ⟨c, hc, hbit, hj⟩
    rcases List.mem_cons.mp hc with rfl | hc
    · exact Or.inl ⟨hbit, hj⟩
    · exact Or.inr ⟨c, hc, hbit, hj⟩
  · rintro (⟨hbit, hj⟩ | ⟨c, hc, hbit, hj⟩)
    · exact ⟨a, List.mem_cons_self a L, hbit, hj⟩
    · exact ⟨c, List.mem_cons_of_mem a hc, hbit, hj⟩

/-- Two cells with different group indices have disjoint 4-byte groups
(all group indices are multiples of 4). -/
theorem groups_disjoint (ox oy : Nat) (a c : Nat × Nat) (j : Nat)
    (hne : cellIndex ox oy a ≠ cellIndex ox oy c)
    (ha : cellIndex ox oy a ≤ j ∧ j < cellIndex ox oy a + 4)
    (hc : cellIndex ox oy c ≤ j ∧ j < cellIndex ox oy c + 4) : False := by
  have d1 := cellIndex_dvd ox oy a
  have d2 := cellIndex_dvd ox oy c
  omega

/-- The main characterization of the Draw fold: over a list of cells with
pairwise distinct group indices, every byte is the XOR of its original
value with 255 exactly when some listed cell with a set sprite bit covers
it, and the final collision flag is true iff it started true or some
listed cell with a set sprite bit covers an originally nonzero byte. -/
theorem foldl_applyCell_char (st : Chip8) (ox oy : Nat) (L : List (Nat × Nat))
    (p : Nat → Nat) (c0 : Bool)
    (hd : L.Pairwise (fun a b => cellIndex ox oy a ≠ cellIndex ox oy b)) :
    (∀ j, (L.foldl (applyCell st ox oy) (p, c0)).1 j =
        if coveredBit st ox oy L j then Nat.xor (p j) 255 else p j) ∧
    ((L.foldl (applyCell st ox oy) (p, c0)).2 = true ↔
      (c0 = true ∨ ∃ c ∈ L, get_sprite_pixel st c.1 c.2 = true ∧
        ∃ b0, b0 < 4 ∧ p (cellIndex ox oy c + b0) ≠ 0)) := by
  induction L generalizing p c0 with
  | nil =>
    constructor
    · intro j
      simp [coveredBit_nil]
    · simp
  | cons a L ih =>
    have hane : ∀ b ∈ L, cellIndex ox oy a ≠ cellIndex ox oy b :=
      (List.pairwise_cons.mp hd).1
    have hdL : L.Pairwise (fun x y => cellIndex ox oy x ≠ cellIndex ox oy y) :=
      (List.pairwise_cons.mp hd).2
    have hfold : (a :: L).foldl (applyCell st ox oy) (p, c0) =
        L.foldl (applyCell st ox oy)
          ((applyCell st ox oy (p, c0) a).1, (applyCell st ox oy (p, c0) a).2) := by
      rw [List.foldl_cons]
    have ih1 := (ih (applyCell st ox oy (p, c0) a).1 (applyCell st ox oy (p, c0) a).2 hdL).1
    have ih2 := (ih (applyCell st ox oy (p, c0) a).1 (applyCell st ox oy (p, c0) a).2 hdL).2
    constructor
    · intro j
      rw [hfold, ih1 j, applyCell_fst]
      simp only [coveredBit_cons]
      by_cases hja : cellIndex ox oy a ≤ j ∧ j < cellIndex ox oy a + 4
      · have hnotL : ¬ coveredBit st ox oy L j := by
          rintro ⟨c, hc, hbit, hj⟩
          exact groups_disjoint ox oy a c j (hane c hc) hja hj
        by_cases hbita : get_sprite_pixel st a.1 a.2
        · simp [hja, hbita, hnotL, PIXEL_ON]
        · simp [hja, hbita, hnotL, PIXEL_OFF, natXor_zero]
      · by_cases hLj : coveredBit st ox oy L j
        · simp [hja, hLj]
        · have : ¬ ((get_sprite_pixel st a.1 a.2 = true ∧
              cellIndex ox oy a ≤ j ∧ j < cellIndex ox oy a + 4) ∨
              coveredBit st ox oy L j) := by
            rintro (⟨_, hj2⟩ | h2)
            · exact hja hj2
            · exact hLj h2
          simp [hja, hLj, this]
    · rw [hfold, ih2]
      have hreads : ∀ c ∈ L, ∀ b0, b0 < 4 →
          (applyCell st ox oy (p, c0) a).1 (cellIndex ox oy c + b0) =
            p (cellIndex ox oy c + b0) := by
        intro c hc b0 hb0
        rw [applyCell_fst]
        have : ¬ (cellIndex ox oy a ≤ cellIndex ox oy c + b0 ∧
            cellIndex ox oy c + b0 < cellIndex ox oy a + 4) := by
          intro hin
          exact groups_disjoint ox oy a c (cellIndex ox oy c + b0) (hane c hc)
            hin ⟨by omega, by omega⟩
        simp [this]
      rw [applyCell_snd]
      constructor
      · rintro ((h | ⟨hbit, b0, hb0, hnz⟩) | ⟨c, hc, hbit, b0, hb0, hnz⟩)
        · exact Or.inl h
        · exact Or.inr ⟨a, List.mem_cons_self a L, hbit, b0, hb0, hnz⟩
        · rw [hreads c hc b0 hb0] at hnz
          exact Or.inr ⟨c, List.mem_cons_of_mem a hc, hbit, b0, hb0, hnz⟩
      · rintro (h | ⟨c, hc, hbit, b0, hb0, hnz⟩)
        · exact Or.inl (Or.inl h)
        · rcases List.mem_cons.mp hc with rfl | hc
          · exact Or.inl (Or.inr ⟨hbit, b0, hb0, hnz⟩)
          · refine Or.inr ⟨c, hc, hbit, b0, hb0, ?_⟩
            rw [hreads c hc b0 hb0]
            exact hnz

/-- For sprite_height ≤ 32, distinct cells have distinct group indices:
the wrapped x and y coordinates are injective on the cell ranges. -/
theorem cells_pairwise (ox oy h : Nat) (hh : h ≤ 32) :
    (cells h).Pairwise (fun a b => cellIndex ox oy a ≠ cellIndex ox oy b) := by
  unfold cells
  rw [List.pairwise_flatMap]
  constructor
  · intro row hrow
    rw [List.pairwise_map]
    refine List.Pairwise.imp_of_mem ?_ (List.pairwise_lt_range 8)
    intro c1 c2 h1 h2 hlt
    have hc1 : c1 < 8 := List.mem_range.mp h1
    have hc2 : c2 < 8 := List.mem_range.mp h2
    unfold cellIndex SCREEN_WIDTH SCREEN_HEIGHT
    dsimp only
    intro heq
    omega
  · refine List.Pairwise.imp_of_mem ?_ (List.pairwise_lt_range h)
    intro r1 r2 h1 h2 hlt q1 hq1 q2 hq2
    rcases List.mem_map.mp hq1 with ⟨c1, hmc1, rfl⟩
    rcases List.mem_map.mp hq2 with ⟨c2, hmc2, rfl⟩
    have hc1 : c1 < 8 := List.mem_range.mp hmc1
    have hc2 : c2 < 8 := List.mem_range.mp hmc2
    have hr2 : r2 < h := List.mem_range.mp h2
    unfold cellIndex SCREEN_WIDTH SCREEN_HEIGHT
    dsimp only
    intro heq
    have hx1 : (c1 + ox) % 64 < 64 := Nat.mod_lt _ (by norm_num)
    have hx2 : (c2 + ox) % 64 < 64 := Nat.mod_lt _ (by norm_num)
    omega

/-- The Draw loops, characterized: each byte covered by a set sprite bit
is XORed with 255, every other byte is untouched; the collision flag is
set iff some set sprite bit covers an originally nonzero byte. -/
theorem drawSprite_char (st : Chip8) (ox oy h : Nat) (p : Nat → Nat)
    (hh : h ≤ 32) :
    (∀ j, (drawSprite st ox oy h p).1 j =
        if coveredBit st ox oy (cells h) j then Nat.xor (p j) 255 else p j) ∧
    ((drawSprite st ox oy h p).2 = true ↔
      ∃ c ∈ cells h, get_sprite_pixel st c.1 c.2 = true ∧
        ∃ b0, b0 < 4 ∧ p (cellIndex ox oy c + b0) ≠ 0) := by
  rw [drawSprite_eq_foldl]
  have hmain := foldl_applyCell_char st ox oy (cells h) p false
    (cells_pairwise ox oy h hh)
  simpa using hmain

theorem get_register_set_flag (st : Chip8) (v w : Nat) (h : w ≠ 0xF) :
    get_register (set_register st 0xF v) w = get_register st w := by
  simp [get_register, set_register, h]

/-- set_register leaves memory and i unchanged, so sprite lookups agree. -/
theorem drawSprite_set_register (st : Chip8) (r v ox oy h : Nat) (p : Nat → Nat) :
    drawSprite (set_register st r v) ox oy h p = drawSprite st ox oy h p := rfl

/-! ## C6: toroidal wraparound, never clipped -/

/-- C6: executing Draw(x, y, n), every sprite bit (row < n, col < 8) is
XORed onto the framebuffer byte group of pixel
((origin_x + col) mod 64, (origin_y + row) mod 32) — the byte index is
4 * ((col + ox) mod 64) + ((row + oy) mod 32) * 4 * 64 — and any byte j
outside every drawn group is untouched: coordinates wrap toroidally and
are never clipped.  n ≤ 32 holds for every decoded Draw (n is a nibble). -/
theorem draw_wraparound (st : Chip8) (pixels : Nat → Nat) (keys : List Bool)
    (rb x y n row col b j : Nat) (hn : n ≤ 32)
    (hrow : row < n) (hcol : col < 8) (hb : b < 4)
    (hj : ∀ r, r < n → ∀ c, c < 8 →
      j < cellIndex (get_register st x) (get_register st y) (r, c) ∨
      cellIndex (get_register st x) (get_register st y) (r, c) + 4 ≤ j) :
    ((execInstr (Instruction.Draw x y n) st pixels keys rb).map
        (fun q => q.2 (4 * ((col + get_register st x) % 64) +
          ((row + get_register st y) % 32) * 4 * 64 + b)) =
      some (Nat.xor
        (pixels (4 * ((col + get_register st x) % 64) +
          ((row + get_register st y) % 32) * 4 * 64 + b))
        (if get_sprite_pixel st row col then 255 else 0))) ∧
    ((execInstr (Instruction.Draw x y n) st pixels keys rb).map (fun q => q.2 j) =
      some (pixels j)) := by
  simp only [execInstr, Option.map_some']
  set ox := get_register st x with hox
  set oy := get_register st y with hoy
  have hchar := (drawSprite_char st ox oy n pixels hn).1
  have hidx : 4 * ((col + ox) % 64) + ((row + oy) % 32) * 4 * 64 + b =
      cellIndex ox oy (row, col) + b := rfl
  have hsymR : Symmetric (fun a c : Nat × Nat =>
      cellIndex ox oy a ≠ cellIndex ox oy c) := by
    intro u v h e
    exact h e.symm
  have hsym := List.Pairwise.forall hsymR (cells_pairwise ox oy n hn)
  constructor
  · rw [hidx]
    rw [hchar (cellIndex ox oy (row, col) + b)]
    by_cases hbit : get_sprite_pixel st row col
    · have hcov : coveredBit st ox oy (cells n) (cellIndex ox oy (row, col) + b) :=
        ⟨(row, col), (mem_cells n row col).mpr ⟨hrow, hcol⟩, hbit, by omega⟩
      simp [hcov, hbit]
    · have hncov : ¬ coveredBit st ox oy (cells n) (cellIndex ox oy (row, col) + b) := by
        rintro ⟨c, hcmem, hcbit, hcj⟩
        by_cases hceq : c = (row, col)
        · subst hceq
          exact hbit hcbit
        · exact groups_disjoint ox oy (row, col) c (cellIndex ox oy (row, col) + b)
            (hsym ((mem_cells n row col).mpr ⟨hrow, hcol⟩) hcmem (Ne.symm hceq))
            ⟨by omega, by omega⟩ hcj
      simp [hncov, hbit, natXor_zero]
  · rw [hchar j]
    have hncov : ¬ coveredBit st ox oy (cells n) j := by
      rintro ⟨c, hcmem, hcbit, hcj⟩
      have hm : c.1 < n ∧ c.2 < 8 := (mem_cells n c.1 c.2).mp (by simpa using hcmem)
      have hcc : cellIndex ox oy (c.1, c.2) = cellIndex ox oy c := rfl
      rcases hj c.1 hm.1 c.2 hm.2 with h1 | h1 <;> omega
    simp [hncov]

/-- C6 witness state: sprite row 0xFF at i = 0x300, register 0 = 60 (the
x origin) and register 1 = 0 (the y origin): an 8x1 sprite at (60, 0). -/
def c6WitSt : Chip8 :=
  { Chip8.new with
      i := 0x300
      memory := fun a => if a = 0x300 then 0xFF else 0
      registers := fun q => if q = 0 then 60 else 0 }

/-- Witness: column 4 of the sprite at origin (60, 0) lands on screen
column (4 + 60) % 64 = 0 — the left edge — and byte 100 is untouched. -/
theorem draw_wraparound_witness :
    ((execInstr (Instruction.Draw 0 1 1) c6WitSt (fun _ => 0) [] 0).map
        (fun q => q.2 (4 * ((4 + get_register c6WitSt 0) % 64) +
          ((0 + get_register c6WitSt 1) % 32) * 4 * 64 + 0)) =
      some (Nat.xor 0 (if get_sprite_pixel c6WitSt 0 4 then 255 else 0))) ∧
    ((execInstr (Instruction.Draw 0 1 1) c6WitSt (fun _ => 0) [] 0).map
        (fun q => q.2 100) = some 0) :=
  draw_wraparound c6WitSt (fun _ => 0) [] 0 0 1 1 0 4 0 100 (by norm_num)
    (by norm_num) (by norm_num) (by norm_num) (by decide)

/-! ## C5: draw idempotence -/

/-- C5 counterexample state: register 0xF holds 1 (and is the x-position
register of the draw), register 0 holds 0, one sprite row 0x80 at 0x300. -/
def c5CexSt : Chip8 :=
  { Chip8.new with
      i := 0x300
      memory := fun a => if a = 0x300 then 0x80 else 0
      registers := fun q => if q = 0xF then 1 else 0 }

set_option maxRecDepth 100000 in
/-- C5 counterexample: executing Draw(0xF, 0, 1) twice in succession on an
all-off framebuffer does NOT restore it: the first draw (origin x = 1)
writes bytes 4..7 and then overwrites register 0xF — the position
register — with the collision flag 0, so the second draw happens at
origin x = 0 and leaves byte 4 at 255 ≠ 0. -/
theorem draw_idempotent_claim_cex :
    c5CexSt.registers 0xF = 1 ∧
    (((execInstr (Instruction.Draw 0xF 0 1) c5CexSt (fun _ => 0) [] 0).bind
        (fun q => execInstr (Instruction.Draw 0xF 0 1) q.1 q.2 [] 0)).map
        (fun q => q.2 4) = some 255) ∧
    (255 : Nat) ≠ 0 := by
  refine ⟨rfl, by decide, by norm_num⟩

/-- C5 (amended): executing the same Draw instruction twice in succession
(machine state otherwise unchanged) restores every framebuffer byte to its
pre-draw value — XOR is self-inverse and both draws touch the same cells —
provided the two position registers are not the flag register 0xF, whose
value the first draw overwrites with its collision flag; and whenever the
first draw turned a pixel on (a sprite bit set over a zero byte), the
second draw sets register 0xF to 1. -/
theorem draw_idempotent (st : Chip8) (pixels : Nat → Nat) (keys : List Bool)
    (rb x y n j row col b : Nat) (hn : n ≤ 32) (hx : x ≠ 0xF) (hy : y ≠ 0xF) :
    (((execInstr (Instruction.Draw x y n) st pixels keys rb).bind
        (fun q => execInstr (Instruction.Draw x y n) q.1 q.2 keys rb)).map
        (fun q => q.2 j) = some (pixels j)) ∧
    (row < n → col < 8 → b < 4 → get_sprite_pixel st row col = true →
      pixels (cellIndex (get_register st x) (get_register st y) (row, col) + b) = 0 →
      ((execInstr (Instruction.Draw x y n) st pixels keys rb).bind
        (fun q => execInstr (Instruction.Draw x y n) q.1 q.2 keys rb)).map
        (fun q => q.1.registers 0xF) = some 1) := by
  have hsrx : ∀ v, get_register (set_register st 0xF v) x = get_register st x :=
    fun v => get_register_set_flag st v x hx
  have hsry : ∀ v, get_register (set_register st 0xF v) y = get_register st y :=
    fun v => get_register_set_flag st v y hy
  simp only [execInstr, Option.some_bind, Option.map_some', hsrx, hsry,
    drawSprite_set_register]
  set ox := get_register st x with hox
  set oy := get_register st y with hoy
  have hchar1 := (drawSprite_char st ox oy n pixels hn).1
  constructor
  · have hchar2 := (drawSprite_char st ox oy n
      (drawSprite st ox oy n pixels).1 hn).1
    rw [hchar2 j, hchar1 j]
    by_cases hcov : coveredBit st ox oy (cells n) j
    · simp [hcov, natXor_cancel]
    · simp [hcov]
  · intro hrow hcol hb hbit hzero
    have hmem : (row, col) ∈ cells n := (mem_cells n row col).mpr ⟨hrow, hcol⟩
    have hcovb : coveredBit st ox oy (cells n) (cellIndex ox oy (row, col) + b) :=
      ⟨(row, col), hmem, hbit, by omega⟩
    have hnz : (drawSprite st ox oy n pixels).1 (cellIndex ox oy (row, col) + b) ≠ 0 := by
      rw [hchar1]
      simp [hcovb, hzero]
    have hcoll : (drawSprite st ox oy n (drawSprite st ox oy n pixels).1).2 = true := by
      rw [(drawSprite_char st ox oy n (drawSprite st ox oy n pixels).1 hn).2]
      exact ⟨(row, col), hmem, hbit, b, hb, hnz⟩
    simp [hcoll, set_register]

/-- C5 witness state: sprite row 0x80 at i = 0x300, origin registers
r0 = 3 and r1 = 5. -/
def c5WitSt : Chip8 :=
  { Chip8.new with
      i := 0x300
      memory := fun a => if a = 0x300 then 0x80 else 0
      registers := fun q => if q = 0 then 3 else if q = 1 then 5 else 0 }

theorem draw_idempotent_witness :
    (((execInstr (Instruction.Draw 0 1 1) c5WitSt (fun _ => 0) [] 0).bind
        (fun q => execInstr (Instruction.Draw 0 1 1) q.1 q.2 [] 0)).map
        (fun q => q.2 77) = some 0) ∧
    (0 < 1 → 0 < 8 → 2 < 4 → get_sprite_pixel c5WitSt 0 0 = true →
      (0 : Nat) = 0 →
      (((execInstr (Instruction.Draw 0 1 1) c5WitSt (fun _ => 0) [] 0).bind
        (fun q => execInstr (Instruction.Draw 0 1 1) q.1 q.2 [] 0)).map
        (fun q => q.1.registers 0xF) = some 1)) :=
  draw_idempotent c5WitSt (fun _ => 0) [] 0 0 1 1 77 0 0 2 (by norm_num)
    (by norm_num) (by norm_num)

end Rust8
